import Mathlib

/-!
# Verification of `scripts/build_merchant_dataset.py`

A shallow embedding of the merchant entity-resolution pipeline of
`venice-agents`: candidate grouping by normalized tenant name, the pairwise
similarity scoring function, weighted-graph construction, threshold-based
connected-component extraction, and profile merging.

Pandas cell values are modelled by `PVal` (a string or the missing value
`NaN`), with the Python comparison semantics `NaN == x` false and
`NaN != x` true for every `x`, including `x = NaN` itself.  Geometries are
`Option Point` (a missing geometry is `none`); accessing `.y`/`.x` of a
missing geometry raises in Python, which the embedding renders as `none`
propagation through `Option`.  The external geodesic distance routine is a
parameter `dist : Point → Point → ℚ`; the facts used about it (symmetry,
nonnegativity) are taken as hypotheses where needed.  Scores are `ℚ`.
-/

/-- A pandas cell value: either the missing value `NaN` or a string. -/
inductive PVal where
  | nan : PVal
  | str : String → PVal
deriving DecidableEq, Repr

/-- Python `==` on cell values: `NaN` compares unequal to everything,
itself included. -/
def pyEq : PVal → PVal → Bool
  | PVal.str a, PVal.str b => a == b
  | _, _ => false

/-- Python `!=` on cell values; in particular `NaN != NaN` is `True`. -/
def pyNe (a b : PVal) : Bool := !(pyEq a b)

/-- Pandas `notna`: true exactly on non-missing values. -/
def PVal.notna : PVal → Bool
  | PVal.nan => false
  | PVal.str _ => true

/-- A geographic point (longitude `x`, latitude `y`), as a shapely point. -/
structure Point where
  x : ℚ
  y : ℚ
deriving DecidableEq, Repr

/-- One row of the (filtered) land-register dataframe: the columns the
pipeline reads, plus the added `ten_name_norm` column. -/
structure Row where
  ten_name : PVal
  ten_name_norm : PVal
  geometry : Option Point
  parish_std : PVal
  sestiere : PVal
  PP_Function_TOP : PVal
  PP_Bottega_STD : PVal
  PP_Bottega_TRAD : PVal
  PP_Bottega_METACATEGORY : PVal
deriving DecidableEq, Repr

/-- The body of `score_function` once both geometries have been read and
the geodesic `distance` computed: base 1.0, inverse-distance decay
(skipped at distance 0), parish and sestiere penalties, then the
parcel-type interaction (CASA/CASA forces 0; SHOP/SHOP compares
standardized types and metacategories). -/
def scoreFromValues (distance : ℚ) (row1 row2 : Row) : ℚ :=
  let score : ℚ := 1
  let score := if distance ≠ 0 then score / (1 + distance / 500) else score
  let score := if pyNe row1.parish_std row2.parish_std then score * (8/10) else score
  let score := if pyNe row1.sestiere row2.sestiere then score * (1/2) else score
  if pyEq row1.PP_Function_TOP (PVal.str "CASA") &&
     pyEq row2.PP_Function_TOP (PVal.str "CASA") then
    0
  else if pyEq row1.PP_Function_TOP (PVal.str "SHOP") &&
          pyEq row2.PP_Function_TOP (PVal.str "SHOP") then
    let score :=
      if pyNe row1.PP_Bottega_STD row2.PP_Bottega_STD &&
         pyEq row1.PP_Bottega_METACATEGORY row2.PP_Bottega_METACATEGORY then
        score * (8/10) else score
    let score :=
      if pyNe row1.PP_Bottega_STD row2.PP_Bottega_STD &&
         pyNe row1.PP_Bottega_METACATEGORY row2.PP_Bottega_METACATEGORY then
        score * (1/2) else score
    score
  else
    score

/-- `score_function(row1, row2)`: reads `row.geometry.y` / `row.geometry.x`
of both rows (raising — `none` — if either geometry is missing), computes
the geodesic distance via the external `dist`, and applies
`scoreFromValues`. -/
def score_function (dist : Point → Point → ℚ) (row1 row2 : Row) : Option ℚ :=
  match row1.geometry, row2.geometry with
  | some p1, some p2 => some (scoreFromValues (dist p1 p2) row1 row2)
  | _, _ => none

/-- Both rows are classified `CASA` (the condition of the
disconnection rule in `score_function`). -/
def bothCASA (r1 r2 : Row) : Bool :=
  pyEq r1.PP_Function_TOP (PVal.str "CASA") &&
  pyEq r2.PP_Function_TOP (PVal.str "CASA")

/-- Example record: a food shop of tenant "rossi" in S. Marco. -/
def rowShopFood : Row :=
  { ten_name := PVal.str "Rossi", ten_name_norm := PVal.str "rossi",
    geometry := some ⟨12, 45⟩, parish_std := PVal.str "S. Marco",
    sestiere := PVal.str "S. Marco", PP_Function_TOP := PVal.str "SHOP",
    PP_Bottega_STD := PVal.str "fruttariol",
    PP_Bottega_TRAD := PVal.str "fruit seller",
    PP_Bottega_METACATEGORY := PVal.str "food" }

/-- Example record: a house of tenant "rossi" in Castello. -/
def rowCasa : Row :=
  { ten_name := PVal.str "rossi", ten_name_norm := PVal.str "rossi",
    geometry := some ⟨13, 46⟩, parish_std := PVal.str "S. Pietro",
    sestiere := PVal.str "Castello", PP_Function_TOP := PVal.str "CASA",
    PP_Bottega_STD := PVal.nan, PP_Bottega_TRAD := PVal.nan,
    PP_Bottega_METACATEGORY := PVal.nan }

/-- Example record: an OTHER-classified parcel with all locality codes
missing. -/
def rowOtherNan : Row :=
  { ten_name := PVal.str "Verdi", ten_name_norm := PVal.str "verdi",
    geometry := some ⟨14, 44⟩, parish_std := PVal.nan,
    sestiere := PVal.nan, PP_Function_TOP := PVal.str "OTHER",
    PP_Bottega_STD := PVal.nan, PP_Bottega_TRAD := PVal.nan,
    PP_Bottega_METACATEGORY := PVal.nan }

/-- Example record: a second OTHER-classified parcel of tenant "verdi"
with all locality codes missing. -/
def rowOtherNanB : Row :=
  { rowOtherNan with ten_name := PVal.str "verdi", geometry := some ⟨15, 44⟩ }

/-- Pandas `.str.strip()`: remove leading and trailing whitespace. -/
def pyStrip (st : String) : String :=
  String.mk (((st.data.dropWhile Char.isWhitespace).reverse.dropWhile
    Char.isWhitespace).reverse)

/-- Pandas `.str.lower()`: lowercase every character. -/
def pyLower (st : String) : String :=
  String.mk (st.data.map Char.toLower)

/-- The `ten_norm` normalization: keep `NaN` as `NaN`, strip and lowercase,
and turn the empty string into `NaN` (the `.replace("", pd.NA)` step). -/
def normalizeName : PVal → PVal
  | PVal.nan => PVal.nan
  | PVal.str st =>
      let t := pyLower (pyStrip st)
      if t = "" then PVal.nan else PVal.str t

/-- `dup_names`: the normalized names (NaN dropped) occurring more than
once in the input. -/
def dup_names (rows : List Row) : List String :=
  ((rows.filterMap fun r =>
      match normalizeName r.ten_name with
      | PVal.str st => some st
      | PVal.nan => none).dedup).filter
    fun st => 1 < rows.countP fun r => normalizeName r.ten_name == PVal.str st

/-- The dataframe restricted to duplicated tenants
(`df[ten_norm.isin(dup_names)]`), with the normalized name added as the
`ten_name_norm` column. -/
def dfDup (rows : List Row) : List Row :=
  (rows.filter fun r =>
      match normalizeName r.ten_name with
      | PVal.str st => decide (st ∈ dup_names rows)
      | PVal.nan => false).map
    fun r => { r with ten_name_norm := normalizeName r.ten_name }

/-- `df.groupby("ten_name_norm")`: one group per duplicated normalized
name. -/
def groupedBy (rows : List Row) : List (String × List Row) :=
  (dup_names rows).map fun name =>
    (name, (dfDup rows).filter fun r => r.ten_name_norm == PVal.str name)

/-- `keep_group`: the group has at least one non-null `PP_Bottega_STD`. -/
def keep_group (g : List Row) : Bool :=
  g.any fun r => r.PP_Bottega_STD.notna

/-- `kept_groups`: the duplicated-tenant groups that pass `keep_group`. -/
def kept_groups (rows : List Row) : List (String × List Row) :=
  (groupedBy rows).filter fun ng => keep_group ng.2

/-- Example record: a CASA-classified parcel that nonetheless carries a
standardized bottega type. -/
def rowCasaBottega : Row :=
  { ten_name := PVal.str "Rossi ", ten_name_norm := PVal.nan,
    geometry := some ⟨12, 45⟩, parish_std := PVal.str "S. Marco",
    sestiere := PVal.str "S. Marco", PP_Function_TOP := PVal.str "CASA",
    PP_Bottega_STD := PVal.str "fruttariol",
    PP_Bottega_TRAD := PVal.str "fruit seller",
    PP_Bottega_METACATEGORY := PVal.str "food" }

/-- The single tenant group produced by
`kept_groups [rowCasaBottega, rowCasa]`. -/
def exGroupRows : List Row :=
  [{ rowCasaBottega with ten_name_norm := PVal.str "rossi" },
   { rowCasa with ten_name_norm := PVal.str "rossi" }]

/-- The resolution graph: one node per retained record (ids assigned in
insertion order) and weighted edges. -/
structure Graph where
  nodes : List (Nat × Row)
  edges : List (Nat × Nat × ℚ)
deriving DecidableEq, Repr

/-- Node insertion of `create_tenant_graph`: every row of every kept
group becomes a node, `node_id` counting up from 0. -/
def allNodes (kept : List (String × List Row)) : List (Nat × Row) :=
  (kept.flatMap Prod.snd).enum

/-- `tenant_nodes`: the nodes whose `ten_name_norm` attribute compares
equal (Python `==`) to the group's tenant name. -/
def tenantNodes (nodes : List (Nat × Row)) (name : String) : List (Nat × Row) :=
  nodes.filter fun n => pyEq n.2.ten_name_norm (PVal.str name)

/-- All unordered pairs `(i, j)` with `i` before `j`, as iterated by the
double loop `for i in range(len(tenant_nodes)): for j in range(i+1, ...)`. -/
def pairsOf {α : Type} : List α → List (α × α)
  | [] => []
  | x :: xs => (xs.map fun y => (x, y)) ++ pairsOf xs

/-- `create_tenant_graph`: all rows become nodes, and every pair of nodes
inside a tenant group is scored and added as an edge.  A missing geometry
makes `score_function` raise, which aborts the whole construction:
the result is `none`. -/
def create_tenant_graph (dist : Point → Point → ℚ)
    (kept : List (String × List Row)) : Option Graph :=
  match kept.mapM (fun ng =>
      (pairsOf (tenantNodes (allNodes kept) ng.1)).mapM fun pr =>
        (score_function dist pr.1.2 pr.2.2).map fun w => (pr.1.1, pr.2.1, w)) with
  | some edgess => some ⟨allNodes kept, edgess.flatten⟩
  | none => none

/-- The node ids of a graph. -/
def nodeIds (G : Graph) : List Nat := G.nodes.map Prod.fst

/-- The edges surviving the threshold: `get_filtered_components` removes
every edge with `weight < t`, keeping exactly those with `¬(w < t)`. -/
def keptEdges (G : Graph) (t : ℚ) : List (Nat × Nat × ℚ) :=
  G.edges.filter fun e => !(decide (e.2.2 < t))

/-- Merge the blocks containing `u` or `v` into one (a union-find step on
a list-of-blocks representation). -/
def mergeComps (comps : List (List Nat)) (u v : Nat) : List (List Nat) :=
  (comps.filter fun c => decide (u ∈ c ∨ v ∈ c)).flatten ::
    comps.filter fun c => !decide (u ∈ c ∨ v ∈ c)

/-- One union step per surviving edge. -/
def unionStep (comps : List (List Nat)) (e : Nat × Nat × ℚ) : List (List Nat) :=
  mergeComps comps e.1 e.2.1

/-- `get_filtered_components`: drop the edges below the threshold and
return the connected components of what remains (isolated nodes
included), computed by folding a union-find step over the surviving
edges starting from singleton blocks. -/
def get_filtered_components (G : Graph) (t : ℚ) : List (List Nat) :=
  (keptEdges G t).foldl unionStep ((nodeIds G).map fun i => [i])

/-- Undirected adjacency through an explicit edge list. -/
def Adj1 (E : List (Nat × Nat × ℚ)) (u v : Nat) : Prop :=
  ∃ w, (u, v, w) ∈ E ∨ (v, u, w) ∈ E

/-- Two nodes lie in a common block. -/
def SameBlock (comps : List (List Nat)) (u v : Nat) : Prop :=
  ∃ c ∈ comps, u ∈ c ∧ v ∈ c

/-- A union step either joins two nodes through a block or through a
listed edge: the one-step relation whose reflexive-transitive closure the
union-find fold realizes. -/
def BlockEdgeRel (comps : List (List Nat)) (E : List (Nat × Nat × ℚ))
    (a b : Nat) : Prop :=
  SameBlock comps a b ∨ Adj1 E a b

/-- `comps` is a partition of `ids` (cover, containment, and uniqueness
of the block through any element). -/
structure Partit (ids : List Nat) (comps : List (List Nat)) : Prop where
  cover : ∀ u ∈ ids, ∃ c ∈ comps, u ∈ c
  subset : ∀ c ∈ comps, ∀ u ∈ c, u ∈ ids
  uniq : ∀ u c₁ c₂, c₁ ∈ comps → c₂ ∈ comps → u ∈ c₁ → u ∈ c₂ → c₁ = c₂

/-- The everywhere-zero distance function, used to instantiate theorems. -/
def dZero : Point → Point → ℚ := fun _ _ => 0

/-- A house record of tenant "rossi" in the same parish and sestiere as
`rowShopFood`. -/
def rowCasa9 : Row :=
  { rowCasa with parish_std := PVal.str "S. Marco", sestiere := PVal.str "S. Marco" }

/-- The graph built from the single "rossi" group of `rowShopFood` and
`rowCasa9` at distance 0: one edge of weight 1. -/
def GexNine : Graph :=
  { nodes := [(0, rowShopFood), (1, rowCasa9)],
    edges := [(0, 1, 1)] }

/-- A three-node example graph with one heavy and one light edge. -/
def Gex : Graph :=
  { nodes := [(0, rowShopFood), (1, rowCasa), (2, rowOtherNan)],
    edges := [(0, 1, 1), (1, 2, 0)] }

/-- A house record of tenant "rossi" with missing geometry. -/
def rowCasaNoGeo : Row :=
  { rowCasa with geometry := none }

/-- One output row of the merchant dataset (a merchant profile). -/
structure Person where
  person : PVal
  shop_count : Nat
  shop_type : List PVal
  shop_type_eng : List PVal
  shop_category : List PVal
  shop_lat : List (Option ℚ)
  shop_lng : List (Option ℚ)
  house_lat : Option ℚ
  house_lng : Option ℚ
deriving DecidableEq, Repr

/-- The shop records of a component: members with a non-null
`PP_Bottega_STD` (`g[g["PP_Bottega_STD"].notna()]`), in dataframe order. -/
def shopRows (g : List Row) : List Row :=
  g.filter fun r => r.PP_Bottega_STD.notna

/-- Latitude of a geometry (`geom.y`), `NA` when the geometry is missing. -/
def geomLat : Option Point → Option ℚ
  | none => none
  | some p => some p.y

/-- Longitude of a geometry (`geom.x`), `NA` when the geometry is missing. -/
def geomLng : Option Point → Option ℚ
  | none => none
  | some p => some p.x

/-- One iteration of the `components_to_dataframe` loop on a component's
row list: home row = first CASA row, else the first row (an empty
component would raise at `iloc[0]`: `none`); shop rows = members with
non-null standardized type; skip (`continue`, here `none`) when there are
no shop rows; otherwise emit the profile with its parallel shop lists.
The CRS round-trip of the script is the identity here (both frames are
EPSG:4326). -/
def profileOfComponent (g : List Row) : Option Person :=
  match (g.filter fun r => pyEq r.PP_Function_TOP (PVal.str "CASA")).head? <|> g.head? with
  | none => none
  | some home_row =>
      if (shopRows g).length = 0 then none
      else some
        { person := home_row.ten_name,
          shop_count := (shopRows g).length,
          shop_type := (shopRows g).map fun r => r.PP_Bottega_STD,
          shop_type_eng := (shopRows g).map fun r => r.PP_Bottega_TRAD,
          shop_category := (shopRows g).map fun r => r.PP_Bottega_METACATEGORY,
          shop_lat := (shopRows g).map fun r => geomLat r.geometry,
          shop_lng := (shopRows g).map fun r => geomLng r.geometry,
          house_lat := geomLat home_row.geometry,
          house_lng := geomLng home_row.geometry }

/-- `components_to_dataframe`: look up each component's rows and emit one
profile per component that has shop rows. -/
def components_to_dataframe (G : Graph) (components : List (List Nat)) :
    List Person :=
  components.filterMap fun comp =>
    profileOfComponent
      (comp.filterMap fun nid => (G.nodes.find? fun n => n.1 == nid).map Prod.snd)

/-- The profile emitted for the singleton component of `rowShopFood`. -/
def personShopFood : Person :=
  { person := PVal.str "Rossi",
    shop_count := 1,
    shop_type := [PVal.str "fruttariol"],
    shop_type_eng := [PVal.str "fruit seller"],
    shop_category := [PVal.str "food"],
    shop_lat := [some 45],
    shop_lng := [some 12],
    house_lat := some 45,
    house_lng := some 12 }

/-! ## Lemmas and claim theorems about the similarity scorer -/

lemma pyEq_symm (a b : PVal) : pyEq a b = pyEq b a := by
  cases a <;> cases b <;> simp [pyEq, BEq.comm]

lemma pyNe_symm (a b : PVal) : pyNe a b = pyNe b a := by
  simp [pyNe, pyEq_symm]

lemma scoreFromValues_symm (d : ℚ) (r1 r2 : Row) :
    scoreFromValues d r1 r2 = scoreFromValues d r2 r1 := by
  unfold scoreFromValues
  rw [pyNe_symm r1.parish_std, pyNe_symm r1.sestiere,
      pyNe_symm r1.PP_Bottega_STD, pyEq_symm r1.PP_Bottega_METACATEGORY,
      pyNe_symm r1.PP_Bottega_METACATEGORY, Bool.and_comm (pyEq r1.PP_Function_TOP _),
      Bool.and_comm (pyEq r1.PP_Function_TOP (PVal.str "SHOP"))]

/-- **C1.** The similarity score is symmetric: whenever a score is
computed for a pair, `score(a,b) = score(b,a)` (the external geodesic
distance being symmetric). -/
theorem score_function_symm (dist : Point → Point → ℚ)
    (hdist : ∀ p q, dist p q = dist q p) (a b : Row) :
    score_function dist a b = score_function dist b a := by
  unfold score_function
  cases ha : a.geometry <;> cases hb : b.geometry <;> simp
  rw [hdist, scoreFromValues_symm]

/-- Concrete instantiation of C1: two records with distinct parishes,
sestieri, and shop data score identically in both orders. -/
theorem score_function_symm_witness :
    score_function (fun _ _ => 250)
      { ten_name := PVal.str "Rossi", ten_name_norm := PVal.str "rossi",
        geometry := some ⟨1, 2⟩, parish_std := PVal.str "S. Marco",
        sestiere := PVal.nan, PP_Function_TOP := PVal.str "SHOP",
        PP_Bottega_STD := PVal.str "spezier", PP_Bottega_TRAD := PVal.str "spicer",
        PP_Bottega_METACATEGORY := PVal.str "food" }
      { ten_name := PVal.str "rossi", ten_name_norm := PVal.str "rossi",
        geometry := some ⟨3, 4⟩, parish_std := PVal.nan,
        sestiere := PVal.str "Castello", PP_Function_TOP := PVal.str "CASA",
        PP_Bottega_STD := PVal.nan, PP_Bottega_TRAD := PVal.nan,
        PP_Bottega_METACATEGORY := PVal.nan } =
    score_function (fun _ _ => 250)
      { ten_name := PVal.str "rossi", ten_name_norm := PVal.str "rossi",
        geometry := some ⟨3, 4⟩, parish_std := PVal.nan,
        sestiere := PVal.str "Castello", PP_Function_TOP := PVal.str "CASA",
        PP_Bottega_STD := PVal.nan, PP_Bottega_TRAD := PVal.nan,
        PP_Bottega_METACATEGORY := PVal.nan }
      { ten_name := PVal.str "Rossi", ten_name_norm := PVal.str "rossi",
        geometry := some ⟨1, 2⟩, parish_std := PVal.str "S. Marco",
        sestiere := PVal.nan, PP_Function_TOP := PVal.str "SHOP",
        PP_Bottega_STD := PVal.str "spezier", PP_Bottega_TRAD := PVal.str "spicer",
        PP_Bottega_METACATEGORY := PVal.str "food" } :=
  score_function_symm (fun _ _ => 250) (fun _ _ => rfl) _ _

/-- **C2.** Two records both classified `CASA` score exactly 0 whenever a
score is computed for them, whatever the distance, parishes and sestieri:
the parcel-type rule overrides the earlier multiplicative factors. -/
theorem score_function_casa_casa (dist : Point → Point → ℚ) (a b : Row)
    (p1 p2 : Point) (ha : a.geometry = some p1) (hb : b.geometry = some p2)
    (hca : a.PP_Function_TOP = PVal.str "CASA")
    (hcb : b.PP_Function_TOP = PVal.str "CASA") :
    score_function dist a b = some 0 := by
  unfold score_function
  rw [ha, hb]
  unfold scoreFromValues
  rw [hca, hcb]
  simp [pyEq]

/-- Concrete instantiation of C2: two CASA records 10 km apart, in
different parishes and sestieri, still score 0. -/
theorem score_function_casa_casa_witness :
    score_function (fun _ _ => 10000)
      { ten_name := PVal.str "Bianchi", ten_name_norm := PVal.str "bianchi",
        geometry := some ⟨1, 1⟩, parish_std := PVal.str "S. Polo",
        sestiere := PVal.str "S. Polo", PP_Function_TOP := PVal.str "CASA",
        PP_Bottega_STD := PVal.nan, PP_Bottega_TRAD := PVal.nan,
        PP_Bottega_METACATEGORY := PVal.nan }
      { ten_name := PVal.str "bianchi", ten_name_norm := PVal.str "bianchi",
        geometry := some ⟨9, 9⟩, parish_std := PVal.str "S. Marco",
        sestiere := PVal.str "S. Marco", PP_Function_TOP := PVal.str "CASA",
        PP_Bottega_STD := PVal.nan, PP_Bottega_TRAD := PVal.nan,
        PP_Bottega_METACATEGORY := PVal.nan } = some 0 :=
  score_function_casa_casa (fun _ _ => 10000) _ _ ⟨1, 1⟩ ⟨9, 9⟩ rfl rfl rfl rfl

lemma scoreFromValues_closed (d : ℚ) (r1 r2 : Row) :
    scoreFromValues d r1 r2 =
      if bothCASA r1 r2 then 0 else
        (if d ≠ 0 then 1 / (1 + d / 500) else 1) *
        ((if pyNe r1.parish_std r2.parish_std then (8:ℚ)/10 else 1) *
         ((if pyNe r1.sestiere r2.sestiere then (1:ℚ)/2 else 1) *
          (if pyEq r1.PP_Function_TOP (PVal.str "SHOP") &&
              pyEq r2.PP_Function_TOP (PVal.str "SHOP") then
             (if pyNe r1.PP_Bottega_STD r2.PP_Bottega_STD &&
                 pyEq r1.PP_Bottega_METACATEGORY r2.PP_Bottega_METACATEGORY then
                (8:ℚ)/10 else 1) *
             (if pyNe r1.PP_Bottega_STD r2.PP_Bottega_STD &&
                 pyNe r1.PP_Bottega_METACATEGORY r2.PP_Bottega_METACATEGORY then
                (1:ℚ)/2 else 1)
           else 1))) := by
  simp only [scoreFromValues, bothCASA]
  split_ifs <;> ring

lemma scoreFromValues_eq_div (d : ℚ) (r1 r2 : Row) (hd : 0 ≤ d) :
    scoreFromValues d r1 r2 = scoreFromValues 0 r1 r2 / (1 + d / 500) := by
  rcases eq_or_ne d 0 with rfl | hd0
  · norm_num
  · rw [scoreFromValues_closed d r1 r2, scoreFromValues_closed 0 r1 r2,
        if_neg (show ¬((0:ℚ) ≠ 0) by norm_num), if_pos hd0]
    split_ifs <;> ring

lemma scoreFromValues_zero_pos (r1 r2 : Row) (hne : bothCASA r1 r2 = false) :
    0 < scoreFromValues 0 r1 r2 := by
  rw [scoreFromValues_closed 0 r1 r2, if_neg (by simp [hne])]
  split_ifs <;> norm_num

/-- **C8.** For a pair that is not CASA–CASA, with everything but the
distance held fixed, the score is strictly positive at every nonnegative
distance and strictly decreasing in the distance: the decay factor
`1/(1 + d/500)` alone never brings it to 0. -/
theorem scoreFromValues_pos_strictAnti (r1 r2 : Row)
    (hne : bothCASA r1 r2 = false)
    (d1 d2 : ℚ) (h0 : 0 ≤ d1) (h12 : d1 < d2) :
    0 < scoreFromValues d1 r1 r2 ∧ 0 < scoreFromValues d2 r1 r2 ∧
      scoreFromValues d2 r1 r2 < scoreFromValues d1 r1 r2 := by
  have hd2 : 0 ≤ d2 := le_trans h0 (le_of_lt h12)
  have hF : 0 < scoreFromValues 0 r1 r2 := scoreFromValues_zero_pos r1 r2 hne
  have hp1 : (0:ℚ) < 1 + d1 / 500 := by positivity
  have hp2 : (0:ℚ) < 1 + d2 / 500 := by positivity
  rw [scoreFromValues_eq_div d1 r1 r2 h0, scoreFromValues_eq_div d2 r1 r2 hd2]
  refine ⟨div_pos hF hp1, div_pos hF hp2, ?_⟩
  exact div_lt_div_of_pos_left hF hp1 (by linarith)

/-- Concrete instantiation of C8: a SHOP/CASA mixed pair at distances
100 m and 5000 m. -/
theorem scoreFromValues_pos_strictAnti_witness :
    bothCASA rowShopFood rowCasa = false ∧ (0:ℚ) ≤ 100 ∧ (100:ℚ) < 5000 ∧
      (0 < scoreFromValues 100 rowShopFood rowCasa ∧
       0 < scoreFromValues 5000 rowShopFood rowCasa ∧
       scoreFromValues 5000 rowShopFood rowCasa <
         scoreFromValues 100 rowShopFood rowCasa) :=
  ⟨by decide, by norm_num, by norm_num,
    scoreFromValues_pos_strictAnti rowShopFood rowCasa (by decide)
      100 5000 (by norm_num) (by norm_num)⟩

/-- **C10.** The two penalties fire separately on missing locality codes,
because `NaN != NaN` is true in pandas.  (i) Whenever both parish codes
are missing, the parish-difference penalty is applied: the score is
exactly 0.8 times the score of the same pair with any matching parish
strings, everything else (sestieri included) unchanged.  (ii) Whenever
both sestiere codes are missing, the sestiere-difference penalty is
applied: the score is exactly 0.5 times the score of the same pair with
any matching sestiere strings, everything else unchanged. -/
theorem scoreFromValues_nan_locality (r1 r2 : Row) (d : ℚ) (p s : String) :
    (r1.parish_std = PVal.nan → r2.parish_std = PVal.nan →
      scoreFromValues d r1 r2 =
        (8/10) * scoreFromValues d
          { r1 with parish_std := PVal.str p }
          { r2 with parish_std := PVal.str p }) ∧
    (r1.sestiere = PVal.nan → r2.sestiere = PVal.nan →
      scoreFromValues d r1 r2 =
        (1/2) * scoreFromValues d
          { r1 with sestiere := PVal.str s }
          { r2 with sestiere := PVal.str s }) := by
  have e1 : pyNe PVal.nan PVal.nan = true := rfl
  have e2 : pyNe (PVal.str p) (PVal.str p) = false := by simp [pyNe, pyEq]
  have e3 : pyNe (PVal.str s) (PVal.str s) = false := by simp [pyNe, pyEq]
  constructor
  · intro hp1 hp2
    rw [scoreFromValues_closed d r1 r2, scoreFromValues_closed d _ _]
    simp only [bothCASA, hp1, hp2]
    simp only [e1, e2, if_true, Bool.false_eq_true, if_false]
    split_ifs <;> ring
  · intro hs1 hs2
    rw [scoreFromValues_closed d r1 r2, scoreFromValues_closed d _ _]
    simp only [bothCASA, hs1, hs2]
    simp only [e1, e3, if_true, Bool.false_eq_true, if_false]
    split_ifs <;> ring

/-- Concrete instantiation of C10: two OTHER-type records with all
locality codes missing, 100 m apart — moving only the parishes to a
shared value divides the score by 0.8, and moving only the sestieri to a
shared value divides it by 0.5. -/
theorem scoreFromValues_nan_locality_witness :
    (scoreFromValues 100 rowOtherNan rowOtherNanB =
      (8/10) * scoreFromValues 100
        { rowOtherNan with parish_std := PVal.str "S. Polo" }
        { rowOtherNanB with parish_std := PVal.str "S. Polo" }) ∧
    (scoreFromValues 100 rowOtherNan rowOtherNanB =
      (1/2) * scoreFromValues 100
        { rowOtherNan with sestiere := PVal.str "S. Polo" }
        { rowOtherNanB with sestiere := PVal.str "S. Polo" }) :=
  ⟨(scoreFromValues_nan_locality rowOtherNan rowOtherNanB 100
      "S. Polo" "S. Polo").1 rfl rfl,
   (scoreFromValues_nan_locality rowOtherNan rowOtherNanB 100
      "S. Polo" "S. Polo").2 rfl rfl⟩

/-! ## Claim theorems about the candidate grouper -/

lemma normalizeName_ne_empty {v : PVal} {st : String}
    (h : normalizeName v = PVal.str st) : st ≠ "" := by
  cases v with
  | nan => simp [normalizeName] at h
  | str s =>
      simp only [normalizeName] at h
      split_ifs at h with he
      injection h with h2
      exact fun hst => he (h2.trans hst)

lemma mem_dup_names_countP {rows : List Row} {name : String}
    (h : name ∈ dup_names rows) :
    1 < rows.countP fun r => normalizeName r.ten_name == PVal.str name := by
  unfold dup_names at h
  exact of_decide_eq_true (List.mem_filter.mp h).2

lemma mem_dup_names_ne_empty {rows : List Row} {name : String}
    (h : name ∈ dup_names rows) : name ≠ "" := by
  unfold dup_names at h
  have h1 := (List.mem_filter.mp h).1
  rw [List.mem_dedup, List.mem_filterMap] at h1
  obtain ⟨r, _, hr⟩ := h1
  rcases hn : normalizeName r.ten_name with _ | st <;> rw [hn] at hr
  · exact absurd hr (by simp)
  · cases hr
    exact normalizeName_ne_empty hn

/-- **C4 (amended).** Every group emitted by the candidate grouper has at
least 2 records, all carrying the same non-empty normalized tenant name,
and at least one member with a non-null standardized bottega type
(`keep_group`); records with missing or empty tenant names never enter any
group. -/
theorem kept_groups_invariant (rows : List Row) (name : String) (g : List Row)
    (hmem : (name, g) ∈ kept_groups rows) :
    2 ≤ g.length ∧ name ≠ "" ∧
      (∀ r ∈ g, r.ten_name_norm = PVal.str name ∧
                normalizeName r.ten_name = PVal.str name) ∧
      keep_group g = true := by
  unfold kept_groups at hmem
  obtain ⟨hgrp, hkeep⟩ := List.mem_filter.mp hmem
  unfold groupedBy at hgrp
  obtain ⟨name', hname', heq⟩ := List.mem_map.mp hgrp
  obtain ⟨rfl, rfl⟩ : name' = name ∧
      ((dfDup rows).filter fun r => r.ten_name_norm == PVal.str name') = g := by
    exact ⟨congrArg Prod.fst heq, congrArg Prod.snd heq⟩
  refine ⟨?_, mem_dup_names_ne_empty hname', ?_, hkeep⟩
  · -- size: the filtered group counts exactly the rows normalizing to the name
    have hlen : ((dfDup rows).filter
        fun r => r.ten_name_norm == PVal.str name').length =
        rows.countP fun r => normalizeName r.ten_name == PVal.str name' := by
      unfold dfDup
      rw [← List.countP_eq_length_filter, List.countP_map, List.countP_filter]
      refine List.countP_congr fun r _ => ?_
      simp only [Function.comp]
      rcases hn : normalizeName r.ten_name with _ | st
      · simp [hn]
      · simp [hn]
        intro hst
        subst hst
        exact hname'
    rw [hlen]
    exact mem_dup_names_countP hname'
  · intro r hr
    obtain ⟨hrdf, hrq⟩ := List.mem_filter.mp hr
    have hteq : r.ten_name_norm = PVal.str name' := by
      exact eq_of_beq hrq
    refine ⟨hteq, ?_⟩
    unfold dfDup at hrdf
    obtain ⟨r0, _, hr0⟩ := List.mem_map.mp hrdf
    have hnorm : r.ten_name_norm = normalizeName r.ten_name := by
      rw [← hr0]
    rw [← hnorm, hteq]

/-- Concrete instantiation of C4 (amended) on the group of tenant
"rossi". -/
theorem kept_groups_invariant_witness :
    2 ≤ exGroupRows.length ∧ "rossi" ≠ "" ∧
      (∀ r ∈ exGroupRows, r.ten_name_norm = PVal.str "rossi" ∧
                normalizeName r.ten_name = PVal.str "rossi") ∧
      keep_group exGroupRows = true :=
  kept_groups_invariant [rowCasaBottega, rowCasa] "rossi" exGroupRows (by decide)

/-- Counterexample to C4 as stated: the group of tenant "rossi" built from
`rowCasaBottega` and `rowCasa` is kept by the grouper although none of its
members is SHOP-classified — `keep_group` only tests `PP_Bottega_STD`
being non-null, never `PP_Function_TOP == "SHOP"`. -/
theorem kept_groups_shop_counterexample :
    kept_groups [rowCasaBottega, rowCasa] = [("rossi", exGroupRows)] ∧
    pyEq ({ rowCasaBottega with ten_name_norm := PVal.str "rossi" } :
        Row).PP_Function_TOP (PVal.str "SHOP") = false ∧
    pyEq ({ rowCasa with ten_name_norm := PVal.str "rossi" } :
        Row).PP_Function_TOP (PVal.str "SHOP") = false := by
  decide

/-! ## Correctness of the union-find component extraction -/

lemma SameBlock.symm' {comps : List (List Nat)} {u v : Nat}
    (h : SameBlock comps u v) : SameBlock comps v u := by
  obtain ⟨c, hc, hu, hv⟩ := h
  exact ⟨c, hc, hv, hu⟩

lemma sameBlock_refl {ids : List Nat} {comps : List (List Nat)}
    (h : Partit ids comps) {u : Nat} (hu : u ∈ ids) : SameBlock comps u u := by
  obtain ⟨c, hc, huc⟩ := h.cover u hu
  exact ⟨c, hc, huc, huc⟩

lemma sameBlock_trans {ids : List Nat} {comps : List (List Nat)}
    (h : Partit ids comps) {x y z : Nat}
    (hxy : SameBlock comps x y) (hyz : SameBlock comps y z) :
    SameBlock comps x z := by
  obtain ⟨c₁, hc₁, hx, hy₁⟩ := hxy
  obtain ⟨c₂, hc₂, hy₂, hz⟩ := hyz
  cases h.uniq y c₁ c₂ hc₁ hc₂ hy₁ hy₂
  exact ⟨c₁, hc₁, hx, hz⟩

lemma partit_init (ids : List Nat) : Partit ids (ids.map fun i => [i]) := by
  constructor
  · intro u hu
    exact ⟨[u], List.mem_map.mpr ⟨u, hu, rfl⟩, List.mem_singleton.mpr rfl⟩
  · intro c hc u hu
    obtain ⟨i, hi, rfl⟩ := List.mem_map.mp hc
    cases List.mem_singleton.mp hu
    exact hi
  · intro u c₁ c₂ hc₁ hc₂ hu₁ hu₂
    obtain ⟨i₁, _, rfl⟩ := List.mem_map.mp hc₁
    obtain ⟨i₂, _, rfl⟩ := List.mem_map.mp hc₂
    cases List.mem_singleton.mp hu₁
    cases List.mem_singleton.mp hu₂
    rfl

lemma partit_merge {ids : List Nat} {comps : List (List Nat)} {u v : Nat}
    (h : Partit ids comps) : Partit ids (mergeComps comps u v) := by
  constructor
  · intro x hx
    obtain ⟨c, hc, hxc⟩ := h.cover x hx
    by_cases hp : u ∈ c ∨ v ∈ c
    · exact ⟨_, List.mem_cons_self _ _,
        List.mem_flatten.mpr ⟨c, List.mem_filter.mpr ⟨hc, by simp [hp]⟩, hxc⟩⟩
    · exact ⟨c, List.mem_cons_of_mem _ (List.mem_filter.mpr ⟨hc, by simp [hp]⟩), hxc⟩
  · intro c' hc' x hx
    rcases List.mem_cons.mp hc' with rfl | hc'
    · obtain ⟨c, hc, hxc⟩ := List.mem_flatten.mp hx
      exact h.subset c (List.mem_filter.mp hc).1 x hxc
    · exact h.subset c' (List.mem_filter.mp hc').1 x hx
  · intro x c₁ c₂ hc₁ hc₂ hx₁ hx₂
    rcases List.mem_cons.mp hc₁ with rfl | hc₁ <;>
      rcases List.mem_cons.mp hc₂ with heq | hc₂
    · rw [heq]
    · obtain ⟨c, hc, hxc⟩ := List.mem_flatten.mp hx₁
      obtain ⟨hcmem, hcp⟩ := List.mem_filter.mp hc
      obtain ⟨hc₂m, hc₂p⟩ := List.mem_filter.mp hc₂
      cases h.uniq x c c₂ hcmem hc₂m hxc hx₂
      rw [hcp] at hc₂p
      cases hc₂p
    · subst heq
      obtain ⟨c, hc, hxc⟩ := List.mem_flatten.mp hx₂
      obtain ⟨hcmem, hcp⟩ := List.mem_filter.mp hc
      obtain ⟨hc₁m, hc₁p⟩ := List.mem_filter.mp hc₁
      cases h.uniq x c c₁ hcmem hc₁m hxc hx₁
      rw [hcp] at hc₁p
      cases hc₁p
    · exact h.uniq x c₁ c₂ (List.mem_filter.mp hc₁).1 (List.mem_filter.mp hc₂).1 hx₁ hx₂

lemma sameBlock_merge_of {comps : List (List Nat)} {u v x y : Nat}
    (hs : SameBlock comps x y) : SameBlock (mergeComps comps u v) x y := by
  obtain ⟨c, hc, hx, hy⟩ := hs
  by_cases hp : u ∈ c ∨ v ∈ c
  · refine ⟨_, List.mem_cons_self _ _, ?_, ?_⟩
    · exact List.mem_flatten.mpr ⟨c, List.mem_filter.mpr ⟨hc, by simp [hp]⟩, hx⟩
    · exact List.mem_flatten.mpr ⟨c, List.mem_filter.mpr ⟨hc, by simp [hp]⟩, hy⟩
  · exact ⟨c, List.mem_cons_of_mem _ (List.mem_filter.mpr ⟨hc, by simp [hp]⟩), hx, hy⟩

lemma sameBlock_merge_uv {ids : List Nat} {comps : List (List Nat)} {u v : Nat}
    (h : Partit ids comps) (hu : u ∈ ids) (hv : v ∈ ids) :
    SameBlock (mergeComps comps u v) u v := by
  obtain ⟨cu, hcu, hu'⟩ := h.cover u hu
  obtain ⟨cv, hcv, hv'⟩ := h.cover v hv
  refine ⟨_, List.mem_cons_self _ _, ?_, ?_⟩
  · exact List.mem_flatten.mpr ⟨cu, List.mem_filter.mpr ⟨hcu, by simp [Or.inl hu']⟩, hu'⟩
  · exact List.mem_flatten.mpr ⟨cv, List.mem_filter.mpr ⟨hcv, by simp [Or.inr hv']⟩, hv'⟩

lemma sameBlock_merge_elim {comps : List (List Nat)} {u v x y : Nat}
    (hs : SameBlock (mergeComps comps u v) x y) :
    SameBlock comps x y ∨
      ((SameBlock comps x u ∨ SameBlock comps x v) ∧
       (SameBlock comps y u ∨ SameBlock comps y v)) := by
  obtain ⟨c', hc', hx, hy⟩ := hs
  rcases List.mem_cons.mp hc' with rfl | hrest
  · obtain ⟨cx, hcx, hx'⟩ := List.mem_flatten.mp hx
    obtain ⟨cy, hcy, hy'⟩ := List.mem_flatten.mp hy
    obtain ⟨hcxm, hpx⟩ := List.mem_filter.mp hcx
    obtain ⟨hcym, hpy⟩ := List.mem_filter.mp hcy
    right
    constructor
    · rcases of_decide_eq_true hpx with h | h
      exacts [Or.inl ⟨cx, hcxm, hx', h⟩, Or.inr ⟨cx, hcxm, hx', h⟩]
    · rcases of_decide_eq_true hpy with h | h
      exacts [Or.inl ⟨cy, hcym, hy', h⟩, Or.inr ⟨cy, hcym, hy', h⟩]
  · exact Or.inl ⟨c', (List.mem_filter.mp hrest).1, hx, hy⟩

lemma rtg_lift {α : Type} {r s : α → α → Prop}
    (h : ∀ a b, r a b → Relation.ReflTransGen s a b) {x y : α}
    (hr : Relation.ReflTransGen r x y) : Relation.ReflTransGen s x y := by
  induction hr with
  | refl => exact Relation.ReflTransGen.refl
  | tail _ hbc ih => exact ih.trans (h _ _ hbc)

lemma foldl_union_correct (ids : List Nat) :
    ∀ (E : List (Nat × Nat × ℚ)) (comps : List (List Nat)),
      Partit ids comps →
      (∀ e ∈ E, e.1 ∈ ids ∧ e.2.1 ∈ ids) →
      Partit ids (E.foldl unionStep comps) ∧
      ∀ x y : Nat, x ∈ ids →
        (SameBlock (E.foldl unionStep comps) x y ↔
          Relation.ReflTransGen (BlockEdgeRel comps E) x y) := by
  intro E
  induction E with
  | nil =>
      intro comps hP _
      refine ⟨hP, fun x y hx => ?_⟩
      simp only [List.foldl_nil]
      constructor
      · intro hs
        exact Relation.ReflTransGen.single (Or.inl hs)
      · intro hr
        induction hr with
        | refl => exact sameBlock_refl hP hx
        | tail _ hbc ih =>
            rcases hbc with hb | ⟨w, hw⟩
            · exact sameBlock_trans hP ih hb
            · rcases hw with h | h <;> exact absurd h (List.not_mem_nil _)
  | cons e E' IH =>
      intro comps hP hep
      obtain ⟨u, v, w⟩ := e
      have hu : u ∈ ids := (hep (u, v, w) (List.mem_cons_self _ _)).1
      have hv : v ∈ ids := (hep (u, v, w) (List.mem_cons_self _ _)).2
      have hP' : Partit ids (unionStep comps (u, v, w)) := partit_merge hP
      have hep' : ∀ e' ∈ E', e'.1 ∈ ids ∧ e'.2.1 ∈ ids :=
        fun e' he' => hep e' (List.mem_cons_of_mem _ he')
      obtain ⟨hPf, hiff⟩ := IH (unionStep comps (u, v, w)) hP' hep'
      rw [List.foldl_cons]
      refine ⟨hPf, fun x y hx => ?_⟩
      rw [hiff x y hx]
      have adj_uv : Relation.ReflTransGen (BlockEdgeRel comps ((u, v, w) :: E')) u v :=
        Relation.ReflTransGen.single (Or.inr ⟨w, Or.inl (List.mem_cons_self _ _)⟩)
      have smb_uv : SameBlock (unionStep comps (u, v, w)) u v :=
        sameBlock_merge_uv hP hu hv
      constructor
      · refine fun hr => rtg_lift ?_ hr
        intro a b hab
        rcases hab with hs | hadj
        · rcases sameBlock_merge_elim hs with h | ⟨ha, hb⟩
          · exact Relation.ReflTransGen.single (Or.inl h)
          · have hau : ∀ z, SameBlock comps a z →
                Relation.ReflTransGen (BlockEdgeRel comps ((u, v, w) :: E')) a z :=
              fun z hz => Relation.ReflTransGen.single (Or.inl hz)
            rcases ha with ha | ha <;> rcases hb with hb | hb
            · exact (hau u ha).trans (Relation.ReflTransGen.single (Or.inl hb.symm'))
            · exact ((hau u ha).trans adj_uv).trans
                (Relation.ReflTransGen.single (Or.inl hb.symm'))
            · refine (hau v ha).trans ?_
              refine Relation.ReflTransGen.trans ?_
                (Relation.ReflTransGen.single (Or.inl hb.symm'))
              exact Relation.ReflTransGen.single
                (Or.inr ⟨w, Or.inr (List.mem_cons_self _ _)⟩)
            · exact (hau v ha).trans (Relation.ReflTransGen.single (Or.inl hb.symm'))
        · obtain ⟨w', hw'⟩ := hadj
          rcases hw' with h | h
          · exact Relation.ReflTransGen.single
              (Or.inr ⟨w', Or.inl (List.mem_cons_of_mem _ h)⟩)
          · exact Relation.ReflTransGen.single
              (Or.inr ⟨w', Or.inr (List.mem_cons_of_mem _ h)⟩)
      · refine fun hr => rtg_lift ?_ hr
        intro a b hab
        rcases hab with hs | ⟨w', hw'⟩
        · exact Relation.ReflTransGen.single (Or.inl (sameBlock_merge_of hs))
        · rcases hw' with hmem | hmem
          · rcases List.mem_cons.mp hmem with heq | hmem'
            · obtain ⟨rfl, rfl, rfl⟩ : a = u ∧ b = v ∧ w' = w := by
                injection heq with h1 h2
                injection h2 with h2 h3
                exact ⟨h1, h2, h3⟩
              exact Relation.ReflTransGen.single (Or.inl smb_uv)
            · exact Relation.ReflTransGen.single (Or.inr ⟨w', Or.inl hmem'⟩)
          · rcases List.mem_cons.mp hmem with heq | hmem'
            · obtain ⟨rfl, rfl, rfl⟩ : b = u ∧ a = v ∧ w' = w := by
                injection heq with h1 h2
                injection h2 with h2 h3
                exact ⟨h1, h2, h3⟩
              exact Relation.ReflTransGen.single (Or.inl smb_uv.symm')
            · exact Relation.ReflTransGen.single (Or.inr ⟨w', Or.inr hmem'⟩)

lemma sameBlock_init {ids : List Nat} {a b : Nat}
    (h : SameBlock (ids.map fun i => [i]) a b) : a = b := by
  obtain ⟨c, hc, ha, hb⟩ := h
  obtain ⟨i, _, rfl⟩ := List.mem_map.mp hc
  cases List.mem_singleton.mp ha
  cases List.mem_singleton.mp hb
  rfl

lemma rtg_blockEdge_init {ids : List Nat} {E : List (Nat × Nat × ℚ)} {x y : Nat} :
    Relation.ReflTransGen (BlockEdgeRel (ids.map fun i => [i]) E) x y ↔
      Relation.ReflTransGen (Adj1 E) x y := by
  constructor
  · refine fun hr => rtg_lift ?_ hr
    intro a b hab
    rcases hab with hs | hadj
    · cases sameBlock_init hs
      exact Relation.ReflTransGen.refl
    · exact Relation.ReflTransGen.single hadj
  · refine fun hr => rtg_lift ?_ hr
    intro a b hab
    exact Relation.ReflTransGen.single (Or.inr hab)

/-- **C5.** `get_filtered_components G t` (i) deletes exactly the edges of
weight strictly below `t` — the surviving edge list is the filter by
`t ≤ w`, so an edge of weight exactly `t` survives — and (ii) returns the
connected components of the remaining subgraph: every node lies in a
block, blocks hold only nodes, two nodes share a block iff they are
joined by a path of surviving edges, and a node incident to no surviving
edge forms a singleton block. -/
theorem get_filtered_components_spec (G : Graph) (t : ℚ)
    (hep : ∀ e ∈ G.edges, e.1 ∈ nodeIds G ∧ e.2.1 ∈ nodeIds G) :
    keptEdges G t = (G.edges.filter fun e => decide (t ≤ e.2.2)) ∧
    (∀ u ∈ nodeIds G, ∃ c ∈ get_filtered_components G t, u ∈ c) ∧
    (∀ c ∈ get_filtered_components G t, ∀ u ∈ c, u ∈ nodeIds G) ∧
    (∀ u v : Nat, u ∈ nodeIds G →
      ((∃ c ∈ get_filtered_components G t, u ∈ c ∧ v ∈ c) ↔
        Relation.ReflTransGen (Adj1 (keptEdges G t)) u v)) ∧
    (∀ u ∈ nodeIds G, (∀ v, ¬ Adj1 (keptEdges G t) u v) →
      ∃ c ∈ get_filtered_components G t, u ∈ c ∧ ∀ x ∈ c, x = u) := by
  have hepk : ∀ e ∈ keptEdges G t, e.1 ∈ nodeIds G ∧ e.2.1 ∈ nodeIds G :=
    fun e he => hep e (List.mem_filter.mp he).1
  obtain ⟨hPf, hiff⟩ := foldl_union_correct (nodeIds G) (keptEdges G t)
    ((nodeIds G).map fun i => [i]) (partit_init _) hepk
  have hcomp : ∀ u v : Nat, u ∈ nodeIds G →
      ((∃ c ∈ get_filtered_components G t, u ∈ c ∧ v ∈ c) ↔
        Relation.ReflTransGen (Adj1 (keptEdges G t)) u v) := by
    intro u v hu
    exact (hiff u v hu).trans rtg_blockEdge_init
  refine ⟨?_, hPf.cover, hPf.subset, hcomp, ?_⟩
  · refine List.filter_congr fun e _ => ?_
    rw [← decide_not, decide_eq_decide]
    exact not_lt
  · intro u hu hiso
    obtain ⟨c, hc, huc⟩ := hPf.cover u hu
    refine ⟨c, hc, huc, fun x hx => ?_⟩
    have hux : Relation.ReflTransGen (Adj1 (keptEdges G t)) u x :=
      (hcomp u x hu).mp ⟨c, hc, huc, hx⟩
    rcases (Relation.reflTransGen_iff_eq fun v hv => hiso v hv).mp hux with rfl
    rfl

/-- Concrete instantiation of C5: in `Gex` with threshold 1/2, nodes 0
and 1 share a component. -/
theorem get_filtered_components_spec_witness :
    ∃ c ∈ get_filtered_components Gex 1, 0 ∈ c ∧ 1 ∈ c :=
  ((get_filtered_components_spec Gex 1 (by decide)).2.2.2.1 0 1
      (by decide)).mpr
    (Relation.ReflTransGen.single ⟨1, Or.inl (by decide)⟩)

lemma mapM_some_forall {α β : Type} (f : α → Option β) :
    ∀ (l : List α) (l' : List β), l.mapM f = some l' →
      ∀ x ∈ l, ∃ y, f x = some y ∧ y ∈ l' := by
  intro l
  induction l with
  | nil => intro l' _ x hx; cases hx
  | cons a l ih =>
      intro l' h x hx
      rw [List.mapM_cons] at h
      cases hfa : f a with
      | none => rw [hfa] at h; simp at h
      | some y =>
          rw [hfa] at h
          cases hfl : l.mapM f with
          | none => rw [hfl] at h; simp at h
          | some ys =>
              rw [hfl] at h
              simp at h
              subst h
              rcases List.mem_cons.mp hx with rfl | hx'
              · exact ⟨y, hfa, List.mem_cons_self _ _⟩
              · obtain ⟨y', hy', hmem⟩ := ih ys hfl x hx'
                exact ⟨y', hy', List.mem_cons_of_mem _ hmem⟩

lemma mapM_some_mem {α β : Type} (f : α → Option β) :
    ∀ (l : List α) (l' : List β), l.mapM f = some l' →
      ∀ y ∈ l', ∃ x ∈ l, f x = some y := by
  intro l
  induction l with
  | nil =>
      intro l' h y hy
      simp only [List.mapM_nil, Option.pure_def, Option.some.injEq] at h
      subst h
      cases hy
  | cons a l ih =>
      intro l' h y hy
      rw [List.mapM_cons] at h
      cases hfa : f a with
      | none => rw [hfa] at h; simp at h
      | some z =>
          rw [hfa] at h
          cases hfl : l.mapM f with
          | none => rw [hfl] at h; simp at h
          | some ys =>
              rw [hfl] at h
              simp at h
              subst h
              rcases List.mem_cons.mp hy with rfl | hy'
              · exact ⟨a, List.mem_cons_self _ _, hfa⟩
              · obtain ⟨x, hx, hfx⟩ := ih ys hfl y hy'
                exact ⟨x, List.mem_cons_of_mem _ hx, hfx⟩

lemma mem_of_mem_pairsOf {α : Type} :
    ∀ {l : List α} {pr : α × α}, pr ∈ pairsOf l → pr.1 ∈ l ∧ pr.2 ∈ l := by
  intro l
  induction l with
  | nil => intro pr h; cases h
  | cons x xs ih =>
      intro pr h
      rcases List.mem_append.mp h with h | h
      · obtain ⟨y, hy, rfl⟩ := List.mem_map.mp h
        exact ⟨List.mem_cons_self _ _, List.mem_cons_of_mem _ hy⟩
      · obtain ⟨h1, h2⟩ := ih h
        exact ⟨List.mem_cons_of_mem _ h1, List.mem_cons_of_mem _ h2⟩

lemma pairsOf_complete {α : Type} :
    ∀ {l : List α} {a b : α}, a ∈ l → b ∈ l → a ≠ b →
      (a, b) ∈ pairsOf l ∨ (b, a) ∈ pairsOf l := by
  intro l
  induction l with
  | nil => intro a b ha _ _; cases ha
  | cons x xs ih =>
      intro a b ha hb hne
      rcases List.mem_cons.mp ha with rfl | ha' <;>
        rcases List.mem_cons.mp hb with h | hb'
      · exact absurd h.symm hne
      · exact Or.inl (List.mem_append.mpr (Or.inl
          (List.mem_map.mpr ⟨b, hb', rfl⟩)))
      · subst h
        exact Or.inr (List.mem_append.mpr (Or.inl
          (List.mem_map.mpr ⟨a, ha', rfl⟩)))
      · rcases ih ha' hb' hne with h | h
        · exact Or.inl (List.mem_append.mpr (Or.inr h))
        · exact Or.inr (List.mem_append.mpr (Or.inr h))

lemma create_tenant_graph_eq {dist : Point → Point → ℚ}
    {kept : List (String × List Row)} {G : Graph}
    (h : create_tenant_graph dist kept = some G) :
    ∃ edgess, (kept.mapM fun ng =>
        (pairsOf (tenantNodes (allNodes kept) ng.1)).mapM fun pr =>
          (score_function dist pr.1.2 pr.2.2).map fun w => (pr.1.1, pr.2.1, w)) =
        some edgess ∧
      G.nodes = allNodes kept ∧ G.edges = edgess.flatten := by
  unfold create_tenant_graph at h
  split at h
  · rename_i edgess heq
    cases h
    exact ⟨edgess, heq, rfl, rfl⟩
  · cases h

lemma create_tenant_graph_pair_edge {dist : Point → Point → ℚ}
    {kept : List (String × List Row)} {G : Graph}
    (h : create_tenant_graph dist kept = some G)
    {name : String} {grp : List Row} (hg : (name, grp) ∈ kept)
    {pr : (Nat × Row) × (Nat × Row)}
    (hpr : pr ∈ pairsOf (tenantNodes (allNodes kept) name)) :
    ∃ w, score_function dist pr.1.2 pr.2.2 = some w ∧
      (pr.1.1, pr.2.1, w) ∈ G.edges := by
  obtain ⟨edgess, hm, _, hE⟩ := create_tenant_graph_eq h
  obtain ⟨es, hes, hesmem⟩ := mapM_some_forall _ kept edgess hm (name, grp) hg
  obtain ⟨y, hy, hymem⟩ := mapM_some_forall _ _ es hes pr hpr
  obtain ⟨w, hw, rfl⟩ := Option.map_eq_some'.mp hy
  exact ⟨w, hw, hE ▸ List.mem_flatten.mpr ⟨es, hesmem, hymem⟩⟩

lemma create_tenant_graph_endpoints {dist : Point → Point → ℚ}
    {kept : List (String × List Row)} {G : Graph}
    (h : create_tenant_graph dist kept = some G) :
    ∀ e ∈ G.edges, e.1 ∈ nodeIds G ∧ e.2.1 ∈ nodeIds G := by
  obtain ⟨edgess, hm, hN, hE⟩ := create_tenant_graph_eq h
  intro e he
  rw [hE] at he
  obtain ⟨es, hesmem, hemem⟩ := List.mem_flatten.mp he
  obtain ⟨ng, _, hes⟩ := mapM_some_mem _ kept edgess hm es hesmem
  obtain ⟨pr, hpr, hy⟩ := mapM_some_mem _ _ es hes e hemem
  obtain ⟨w, _, hw⟩ := Option.map_eq_some'.mp hy
  obtain ⟨h1, h2⟩ := mem_of_mem_pairsOf hpr
  have h1' : pr.1 ∈ allNodes kept := List.mem_of_mem_filter h1
  have h2' : pr.2 ∈ allNodes kept := List.mem_of_mem_filter h2
  constructor
  · rw [← hw]
    exact List.mem_map.mpr ⟨pr.1, hN ▸ h1', rfl⟩
  · rw [← hw]
    exact List.mem_map.mpr ⟨pr.2, hN ▸ h2', rfl⟩

lemma scoreFromValues_zero_nonneg (r1 r2 : Row) :
    0 ≤ scoreFromValues 0 r1 r2 := by
  rw [scoreFromValues_closed 0 r1 r2]
  split_ifs <;> norm_num

lemma score_function_nonneg {dist : Point → Point → ℚ} {r1 r2 : Row} {w : ℚ}
    (hd : ∀ p q, 0 ≤ dist p q) (h : score_function dist r1 r2 = some w) :
    0 ≤ w := by
  unfold score_function at h
  cases h1 : r1.geometry with
  | none => rw [h1] at h; cases h
  | some p1 =>
      cases h2 : r2.geometry with
      | none => rw [h1, h2] at h; cases h
      | some p2 =>
          rw [h1, h2] at h
          cases h
          rw [scoreFromValues_eq_div _ _ _ (hd p1 p2)]
          have hp : (0:ℚ) < 1 + dist p1 p2 / 500 := by
            have := hd p1 p2
            positivity
          exact div_nonneg (scoreFromValues_zero_nonneg r1 r2) hp.le

/-- **C9.** With threshold 0, all nodes of a tenant group fall into one
connected component after cluster extraction (stated, per the claim, under
the precondition that the group has no CASA–CASA pair): the graph builder
adds an edge for every unordered pair of the group, and every score is
nonnegative, so no edge is removed at threshold 0. -/
theorem tenant_group_single_component (dist : Point → Point → ℚ)
    (hdnn : ∀ p q, 0 ≤ dist p q)
    (kept : List (String × List Row)) (G : Graph)
    (hG : create_tenant_graph dist kept = some G)
    (name : String) (grp : List Row) (hgrp : (name, grp) ∈ kept)
    (hnoHH : ∀ n₁ ∈ tenantNodes G.nodes name, ∀ n₂ ∈ tenantNodes G.nodes name,
      n₁.1 ≠ n₂.1 → bothCASA n₁.2 n₂.2 = false)
    (i j : Nat) (r r' : Row)
    (hi : (i, r) ∈ G.nodes) (hj : (j, r') ∈ G.nodes)
    (hri : pyEq r.ten_name_norm (PVal.str name) = true)
    (hrj : pyEq r'.ten_name_norm (PVal.str name) = true) :
    ∃ c ∈ get_filtered_components G 0, i ∈ c ∧ j ∈ c := by
  have hep := create_tenant_graph_endpoints hG
  obtain ⟨edgess0, _, hNodes, _⟩ := create_tenant_graph_eq hG
  have hiN : i ∈ nodeIds G := List.mem_map.mpr ⟨(i, r), hi, rfl⟩
  have hiff := (get_filtered_components_spec G 0 hep).2.2.2.1 i j hiN
  refine hiff.mpr ?_
  by_cases hij : i = j
  · subst hij
    exact Relation.ReflTransGen.refl
  · have hti : (i, r) ∈ tenantNodes (allNodes kept) name := by
      rw [← hNodes]
      exact List.mem_filter.mpr ⟨hi, hri⟩
    have htj : (j, r') ∈ tenantNodes (allNodes kept) name := by
      rw [← hNodes]
      exact List.mem_filter.mpr ⟨hj, hrj⟩
    have hne : ((i, r) : Nat × Row) ≠ (j, r') := by
      intro heq
      exact hij (congrArg Prod.fst heq)
    have hkept : ∀ {w : ℚ} {a b : Nat}, (a, b, w) ∈ G.edges → 0 ≤ w →
        (a, b, w) ∈ keptEdges G 0 := by
      intro w a b hmem hw
      refine List.mem_filter.mpr ⟨hmem, ?_⟩
      simp only [Bool.not_eq_true', decide_eq_false_iff_not]
      exact not_lt.mpr hw
    rcases pairsOf_complete hti htj hne with hpr | hpr
    · obtain ⟨w, hsc, hmem⟩ := create_tenant_graph_pair_edge hG hgrp hpr
      exact Relation.ReflTransGen.single
        ⟨w, Or.inl (hkept hmem (score_function_nonneg hdnn hsc))⟩
    · obtain ⟨w, hsc, hmem⟩ := create_tenant_graph_pair_edge hG hgrp hpr
      exact Relation.ReflTransGen.single
        ⟨w, Or.inr (hkept hmem (score_function_nonneg hdnn hsc))⟩

/-- Concrete instantiation of C9: the "rossi" group of a shop and a house
(no CASA–CASA pair) collapses to one component at threshold 0. -/
theorem tenant_group_single_component_witness :
    ∃ c ∈ get_filtered_components GexNine 0, 0 ∈ c ∧ 1 ∈ c :=
  tenant_group_single_component dZero (fun _ _ => le_refl 0)
    (kept_groups [rowShopFood, rowCasa9]) GexNine (by decide)
    "rossi" [rowShopFood, rowCasa9] (by decide)
    (by decide) 0 1 rowShopFood rowCasa9 (by decide) (by decide)
    (by decide) (by decide)

/-- **C3 (amended).** A candidate pair with a missing geometry is *not*
skipped: `score_function` reads `.geometry.y` of both rows
unconditionally, so the pair's score computation fails and the whole graph
construction aborts (`create_tenant_graph` returns `none`) instead of
continuing without that edge. -/
theorem missing_geometry_aborts (dist : Point → Point → ℚ)
    (kept : List (String × List Row)) (name : String) (grp : List Row)
    (hgrp : (name, grp) ∈ kept) (i j : Nat) (r r' : Row)
    (hi : (i, r) ∈ tenantNodes (allNodes kept) name)
    (hj : (j, r') ∈ tenantNodes (allNodes kept) name)
    (hij : i ≠ j) (hgeo : r.geometry = none) :
    create_tenant_graph dist kept = none := by
  cases hC : create_tenant_graph dist kept with
  | none => rfl
  | some G =>
      exfalso
      have hne : ((i, r) : Nat × Row) ≠ (j, r') := by
        intro heq
        exact hij (congrArg Prod.fst heq)
      rcases pairsOf_complete hi hj hne with hpr | hpr
      · obtain ⟨w, hsc, _⟩ := create_tenant_graph_pair_edge hC hgrp hpr
        unfold score_function at hsc
        rw [hgeo] at hsc
        cases hsc
      · obtain ⟨w, hsc, _⟩ := create_tenant_graph_pair_edge hC hgrp hpr
        unfold score_function at hsc
        rw [hgeo] at hsc
        cases hr' : r'.geometry <;> rw [hr'] at hsc <;> cases hsc

/-- Concrete instantiation of C3 (amended): one record of the "rossi"
group lacks geometry, and graph construction aborts. -/
theorem missing_geometry_aborts_witness :
    create_tenant_graph dZero (kept_groups [rowShopFood, rowCasaNoGeo]) = none :=
  missing_geometry_aborts dZero (kept_groups [rowShopFood, rowCasaNoGeo])
    "rossi" [rowShopFood, rowCasaNoGeo] (by decide) 1 0 rowCasaNoGeo rowShopFood
    (by decide) (by decide) (by decide) rfl

/-- Counterexample to C3 as stated: with a missing geometry in the
"rossi" pair the code does not skip the pair and continue — the whole
construction fails (`none`), never producing a graph. -/
theorem missing_geometry_skip_counterexample :
    create_tenant_graph dZero (kept_groups [rowShopFood, rowCasaNoGeo]) = none ∧
    (kept_groups [rowShopFood, rowCasaNoGeo]).length = 1 := by
  exact ⟨by decide, by decide⟩

/-! ## Claim theorems about the profile merger -/

lemma profileOfComponent_eq_some {g : List Row} {p : Person}
    (h : profileOfComponent g = some p) :
    ∃ home_row,
      ((g.filter fun r => pyEq r.PP_Function_TOP (PVal.str "CASA")).head? <|>
        g.head?) = some home_row ∧
      shopRows g ≠ [] ∧
      p = { person := home_row.ten_name,
            shop_count := (shopRows g).length,
            shop_type := (shopRows g).map fun r => r.PP_Bottega_STD,
            shop_type_eng := (shopRows g).map fun r => r.PP_Bottega_TRAD,
            shop_category := (shopRows g).map fun r => r.PP_Bottega_METACATEGORY,
            shop_lat := (shopRows g).map fun r => geomLat r.geometry,
            shop_lng := (shopRows g).map fun r => geomLng r.geometry,
            house_lat := geomLat home_row.geometry,
            house_lng := geomLng home_row.geometry } := by
  unfold profileOfComponent at h
  cases hm : ((g.filter fun r => pyEq r.PP_Function_TOP (PVal.str "CASA")).head? <|>
      g.head?) with
  | none => rw [hm] at h; cases h
  | some home_row =>
      rw [hm] at h
      split_ifs at h with hz
      cases h
      refine ⟨home_row, rfl, ?_, rfl⟩
      intro hnil
      exact hz (by rw [hnil]; rfl)

/-- **C6.** Every emitted merchant profile has `shop_count ≥ 1`: a
component whose shop-record list is empty is skipped and yields no
profile. -/
theorem merchant_profile_shop_count (G : Graph) (components : List (List Nat)) :
    (∀ p ∈ components_to_dataframe G components, 1 ≤ p.shop_count) ∧
    (∀ g : List Row, shopRows g = [] → profileOfComponent g = none) := by
  constructor
  · intro p hp
    obtain ⟨comp, _, hprof⟩ := List.mem_filterMap.mp hp
    obtain ⟨home_row, _, hne, rfl⟩ := profileOfComponent_eq_some hprof
    exact List.length_pos.mpr hne
  · intro g hg
    unfold profileOfComponent
    cases hm : ((g.filter fun r => pyEq r.PP_Function_TOP (PVal.str "CASA")).head? <|>
        g.head?) with
    | none => rfl
    | some home_row =>
        simp [hg]

/-- Concrete instantiation of C6: the singleton shop component of `Gex`
yields a profile with one shop, and a shopless component yields none. -/
theorem merchant_profile_shop_count_witness :
    1 ≤ personShopFood.shop_count ∧ profileOfComponent [rowCasa] = none :=
  ⟨(merchant_profile_shop_count Gex [[0]]).1 personShopFood (by decide),
   (merchant_profile_shop_count Gex [[0]]).2 [rowCasa] rfl⟩

/-- **C7 (amended).** An emitted profile's shop records are exactly the
component members with a non-null standardized type
(`PP_Bottega_STD` notna — regardless of the `PP_Function_TOP`
classification), in stable order, and all five parallel lists are read
off exactly those records. -/
theorem merchant_profile_shops (g : List Row) (p : Person)
    (h : profileOfComponent g = some p) :
    shopRows g = (g.filter fun r => r.PP_Bottega_STD.notna) ∧
    p.shop_count = (shopRows g).length ∧
    p.shop_type = (shopRows g).map (fun r => r.PP_Bottega_STD) ∧
    p.shop_type_eng = (shopRows g).map (fun r => r.PP_Bottega_TRAD) ∧
    p.shop_category = (shopRows g).map (fun r => r.PP_Bottega_METACATEGORY) ∧
    p.shop_lat = (shopRows g).map (fun r => geomLat r.geometry) ∧
    p.shop_lng = (shopRows g).map (fun r => geomLng r.geometry) := by
  obtain ⟨home_row, _, _, rfl⟩ := profileOfComponent_eq_some h
  exact ⟨rfl, rfl, rfl, rfl, rfl, rfl, rfl⟩

/-- Concrete instantiation of C7 (amended) on the component of a lone
CASA record with a bottega type. -/
theorem merchant_profile_shops_witness :
    shopRows [rowCasaBottega] =
      ([rowCasaBottega].filter fun r => r.PP_Bottega_STD.notna) ∧
    ({ personShopFood with person := PVal.str "Rossi " } : Person).shop_count =
      (shopRows [rowCasaBottega]).length ∧
    ({ personShopFood with person := PVal.str "Rossi " } : Person).shop_type =
      (shopRows [rowCasaBottega]).map (fun r => r.PP_Bottega_STD) ∧
    ({ personShopFood with person := PVal.str "Rossi " } : Person).shop_type_eng =
      (shopRows [rowCasaBottega]).map (fun r => r.PP_Bottega_TRAD) ∧
    ({ personShopFood with person := PVal.str "Rossi " } : Person).shop_category =
      (shopRows [rowCasaBottega]).map (fun r => r.PP_Bottega_METACATEGORY) ∧
    ({ personShopFood with person := PVal.str "Rossi " } : Person).shop_lat =
      (shopRows [rowCasaBottega]).map (fun r => geomLat r.geometry) ∧
    ({ personShopFood with person := PVal.str "Rossi " } : Person).shop_lng =
      (shopRows [rowCasaBottega]).map (fun r => geomLng r.geometry) :=
  merchant_profile_shops [rowCasaBottega]
    { personShopFood with person := PVal.str "Rossi " } (by decide)

/-- Counterexample to C7 as stated: the component of the lone
`rowCasaBottega` record emits a profile whose shop list contains that
record even though it is CASA-classified, not SHOP-classified — the
merger filters on `PP_Bottega_STD` being non-null, not on the SHOP
classification. -/
theorem merchant_profile_shops_counterexample :
    profileOfComponent [rowCasaBottega] =
      some { personShopFood with person := PVal.str "Rossi " } ∧
    pyEq rowCasaBottega.PP_Function_TOP (PVal.str "SHOP") = false ∧
    pyEq rowCasaBottega.PP_Function_TOP (PVal.str "CASA") = true := by
  exact ⟨by decide, by decide, by decide⟩
